import Mathlib

/-!
# Verification of the XCS learning-engine core (moepmoep12/xcs-framework)

Shallow embedding of the rule/condition model, the population with its
capacity/deletion operations, the learning update, the performance
component's action selection, the genetic algorithm's symbol swapping,
the engine's run/reward protocol and the action-set subsumption routine,
translated from the Python sources
(`xcs/symbol.py`, `xcs/condition.py`, `xcs/classifier.py`,
`xcs/classifier_sets.py`, `xcs/components/learning.py`,
`xcs/components/performance.py`, `xcs/components/discovery.py`,
`xcs/algorithm.py`).

Python floats are modelled by `ℚ` (the claims under study are exact
arithmetic identities and control-flow properties, not rounding
properties); `None`-able values by `Option`; raised exceptions by
`Option`/`Except` results.  Randomness (selection draws, crossover
points) enters the source only through injected strategy objects and
`random` draws; it is modelled by universally quantified oracle
parameters (an index-selection function, a drawn crossover index).
-/

/-- `symbol.py`: a condition symbol is either the wildcard
(`WildcardSymbol`, matches any non-null value) or a plain value symbol
(`Symbol`, matches iff equal).  `__eq__` of both classes is exactly
structural equality of this inductive. -/
inductive XSymbol (α : Type) where
  | wildcard : XSymbol α
  | symbol (value : α) : XSymbol α
deriving DecidableEq, Repr

/-- `WildcardSymbol`-test, `isinstance(-, WildcardSymbol)` in the source. -/
def XSymbol.isWildcard {α : Type} : XSymbol α → Bool
  | .wildcard => true
  | .symbol _ => false

/-- `classifier.py`: a classifier is an immutable `(condition, action)`
pair plus the learned statistics.  A condition (`condition.py`) is the
ordered list of its symbols; `Condition.__eq__` compares the symbol
tuples, i.e. list equality here. -/
structure Classifier (α β : Type) where
  condition : List (XSymbol α)
  action : β
  fitness : ℚ
  prediction : ℚ
  epsilon : ℚ
  numerosity : ℕ
  experience : ℕ
  action_set_size : ℚ
deriving DecidableEq, Repr

/-- `ClassifierSet.numerosity_sum`: sum of the numerosity of all
classifiers of a set. -/
def numerositySum {α β : Type} (cls : List (Classifier α β)) : ℕ :=
  (cls.map (·.numerosity)).sum

/-- `numerosity_sum()` as the `float` it becomes in the numeric updates. -/
def numerositySumQ {α β : Type} (cls : List (Classifier α β)) : ℚ :=
  (numerositySum cls : ℚ)

/-- `sum([cl.fitness for cl in self])` over a classifier list. -/
def fitnessSum {α β : Type} (cls : List (Classifier α β)) : ℚ :=
  (cls.map (·.fitness)).sum

/-- Loop body of `Condition.is_more_general` (`condition.py` lines
62-71): walk the two conditions positionally, carrying the `result`
flag; a differing position with a non-wildcard symbol on the left
returns `False` immediately, a differing wildcard position sets the
flag.  The source asserts equal lengths first (line 60); the
length-mismatch catch-all below corresponds to that `AssertionError`
path, which no theorem below exercises. -/
def isMoreGeneralGo {α : Type} [DecidableEq α] :
    List (XSymbol α) → List (XSymbol α) → Bool → Bool
  | [], [], result => result
  | x :: xs, y :: ys, result =>
    if x = y then isMoreGeneralGo xs ys result
    else if x.isWildcard then isMoreGeneralGo xs ys true
    else false
  | _, _, _ => false

/-- `Condition.is_more_general(other)`: true iff position-wise every
differing symbol of `self` is the wildcard and at least one position
differs. -/
def is_more_general {α : Type} [DecidableEq α]
    (c₁ c₂ : List (XSymbol α)) : Bool :=
  isMoreGeneralGo c₁ c₂ false

/-- `Classifier.subsumes(other)` (`classifier.py`): same action and the
condition is (strictly) more general.  The action comparison
short-circuits before `is_more_general` is called, as in the source. -/
def subsumes {α β : Type} [DecidableEq α] [DecidableEq β]
    (cl₁ cl₂ : Classifier α β) : Bool :=
  decide (cl₁.action = cl₂.action) && is_more_general cl₁.condition cl₂.condition

/-! ## Population (`classifier_sets.py`)

The population owns a list of classifier records; the deletion-selection
strategy object is injected at construction and draws randomly, so it is
modelled as an oracle `sel : ℕ → List (Classifier α β) → (Classifier α β → ℚ) → ℕ`
receiving the call counter, the record list and the vote function and
returning the selected index (any concrete random execution is one such
function). -/

/-- Hard-coded `self._deletion_exp_threshold = 20` of `Population.__init__`. -/
def deletion_exp_threshold : ℕ := 20

/-- Hard-coded `self._deletion_fitness_fraction = 0.1` of `Population.__init__`. -/
def deletion_fitness_fraction : ℚ := 1 / 10

/-- The value bound to `average_fitness` in `trim_population` (line 135).
The walrus in `while numerosity_sum := self.numerosity_sum() > desired_size:`
binds the *comparison result* (a `bool`), so the division
`sum([cl.fitness ...]) / numerosity_sum` divides by `True` (= 1) inside
the loop — not by the numerosity sum. -/
def trim_average_fitness {α β : Type} (desired : ℤ)
    (cls : List (Classifier α β)) : ℚ :=
  fitnessSum cls / (if desired < (numerositySum cls : ℤ) then 1 else 0)

/-- The average fitness as the specification states it:
`Σ(fitness)/numerosity_sum`.  Stated from the spec's words, for
comparison with `trim_average_fitness` above. -/
def spec_average_fitness {α β : Type} (cls : List (Classifier α β)) : ℚ :=
  fitnessSum cls / numerositySumQ cls

/-- `deletion_vote` closure of `trim_population` (lines 137-143). -/
def deletion_vote {α β : Type} (average_fitness : ℚ)
    (cl : Classifier α β) : ℚ :=
  let vote := cl.action_set_size * (cl.numerosity : ℚ)
  if 0 < average_fitness ∧ 0 < cl.fitness ∧
      deletion_exp_threshold < cl.experience ∧
      cl.fitness / (cl.numerosity : ℚ) < deletion_fitness_fraction * average_fitness
  then vote * (average_fitness / (cl.fitness / (cl.numerosity : ℚ)))
  else vote

/-- One deletion (lines 145-152): look up the selected record; decrement
its numerosity if greater than one, otherwise delete the record.  An
out-of-range index is the raised-`IndexError`/`TypeError` path
(`none`). -/
def delete_step {α β : Type} (index : ℕ)
    (cls : List (Classifier α β)) : Option (List (Classifier α β)) :=
  match cls.get? index with
  | none => none
  | some cl =>
    if 1 < cl.numerosity then
      some (cls.set index { cl with numerosity := cl.numerosity - 1 })
    else
      some (cls.eraseIdx index)

/-- The `while` loop of `trim_population`, with the call counter `k` for
the selection oracle and an explicit fuel (the loop deletes one
numerosity per iteration, so `numerositySum` initial fuel suffices
whenever the source loop terminates normally); exhausted fuel while the
guard still holds is a non-returning run (`none`). -/
def trim_loop {α β : Type}
    (sel : ℕ → List (Classifier α β) → (Classifier α β → ℚ) → ℕ)
    (desired : ℤ) :
    ℕ → ℕ → List (Classifier α β) → Option (List (Classifier α β))
  | _, 0, cls => if desired < (numerositySum cls : ℤ) then none else some cls
  | k, fuel + 1, cls =>
    if desired < (numerositySum cls : ℤ) then
      let average_fitness := trim_average_fitness desired cls
      match delete_step (sel k cls (deletion_vote average_fitness)) cls with
      | none => none
      | some cls' => trim_loop sel desired (k + 1) fuel cls'
    else some cls

/-- `Population.trim_population(desired_size)` (lines 132-152).
`desired_size` is an `int` that `insert_classifier` may compute as
`max_size - numerosity`, hence `ℤ`.  There is no `desired_size ≤ max_size`
precondition check in the source. -/
def trim_population {α β : Type}
    (sel : ℕ → List (Classifier α β) → (Classifier α β → ℚ) → ℕ)
    (desired : ℤ) (cls : List (Classifier α β)) :
    Option (List (Classifier α β)) :=
  trim_loop sel desired 0 (numerositySum cls) cls

/-- Index of the first list element satisfying `p` (the `for cl in self`
scans of `insert_classifier` return at the first hit). -/
def find_first_index {γ : Type} (p : γ → Bool) : List γ → Option ℕ
  | [] => none
  | x :: xs => if p x then some 0 else (find_first_index p xs).map (· + 1)

/-- `cl.numerosity += __object.numerosity` on the record at `index`
(merge path of `insert_classifier`). -/
def bump_numerosity {α β : Type} (n : ℕ) (index : ℕ)
    (cls : List (Classifier α β)) : List (Classifier α β) :=
  match cls.get? index with
  | some c => cls.set index { c with numerosity := c.numerosity + n }
  | none => cls

/-- The always-returning second phase of `insert_classifier` (lines
115-129): merge into an equal `(condition, action)` record; else (under
subsumption) merge into the first subsuming record accepted by the
injected subsumption criteria `canSub`; else append as a new record. -/
def insert_after_trim {α β : Type} [DecidableEq α] [DecidableEq β]
    (canSub : Classifier α β → Bool) (do_subsumption : Bool)
    (cl : Classifier α β) (cls' : List (Classifier α β)) :
    List (Classifier α β) :=
  match find_first_index (fun c =>
      decide (c.condition = cl.condition) && decide (c.action = cl.action)) cls' with
  | some i => bump_numerosity cl.numerosity i cls'
  | none =>
    if do_subsumption then
      match find_first_index (fun c => subsumes c cl && canSub c) cls' with
      | some i => bump_numerosity cl.numerosity i cls'
      | none => cls' ++ [cl]
    else cls' ++ [cl]

/-- `Population.insert_classifier(__object, subsumption=...)` (lines
105-129): trim first when the incoming numerosity would overflow
`max_size` (making room for exactly the incoming numerosity), then
merge or append. -/
def insert_classifier {α β : Type} [DecidableEq α] [DecidableEq β]
    (canSub : Classifier α β → Bool)
    (sel : ℕ → List (Classifier α β) → (Classifier α β → ℚ) → ℕ)
    (max_size : ℕ) (do_subsumption : Bool) (cl : Classifier α β)
    (cls : List (Classifier α β)) : Option (List (Classifier α β)) :=
  match (if max_size < numerositySum cls + cl.numerosity then
      trim_population sel ((max_size : ℤ) - (cl.numerosity : ℤ)) cls
    else some cls) with
  | none => none
  | some cls' => some (insert_after_trim canSub do_subsumption cl cls')

/-- A population: record list plus the `max_size` capacity (measured in
summed numerosity). -/
structure PopState (α β : Type) where
  max_size : ℕ
  classifier : List (Classifier α β)
deriving DecidableEq, Repr

/-- The mutating population operations of the claim: insertion (with or
without subsumption), explicit trimming, and assigning `max_size`
(the setter trims to the new value).  Each operation carries the
subsumption criteria and selection oracle it uses. -/
inductive PopOp (α β : Type) where
  | insert (cl : Classifier α β) (do_subsumption : Bool)
      (canSub : Classifier α β → Bool)
      (sel : ℕ → List (Classifier α β) → (Classifier α β → ℚ) → ℕ)
  | trim (desired : ℕ)
      (sel : ℕ → List (Classifier α β) → (Classifier α β → ℚ) → ℕ)
  | setMaxSize (value : ℕ)
      (sel : ℕ → List (Classifier α β) → (Classifier α β → ℚ) → ℕ)

/-- Running one mutating operation; `none` is the raised-exception
(non-returning) path.  `setMaxSize` validates `value ≥ 1`
(`OutOfRangeException` otherwise) and then trims, as the
`max_size` setter does (lines 161-171). -/
def applyOp {α β : Type} [DecidableEq α] [DecidableEq β] :
    PopOp α β → PopState α β → Option (PopState α β)
  | .insert cl do_subsumption canSub sel, s =>
    (insert_classifier canSub sel s.max_size do_subsumption cl s.classifier).map
      (fun c => { s with classifier := c })
  | .trim desired sel, s =>
    (trim_population sel (desired : ℤ) s.classifier).map
      (fun c => { s with classifier := c })
  | .setMaxSize value sel, s =>
    if value < 1 then none
    else (trim_population sel (value : ℤ) s.classifier).map
      (fun c => { max_size := value, classifier := c })

/-- Running a sequence of mutating operations, stopping at the first
raised exception. -/
def execOps {α β : Type} [DecidableEq α] [DecidableEq β]
    (s : PopState α β) : List (PopOp α β) → Option (PopState α β)
  | [] => some s
  | op :: ops =>
    match applyOp op s with
    | none => none
    | some s' => execOps s' ops

/-- The claim's per-operation side conditions: an inserted classifier
has numerosity at most `max_size`, an explicit trim asks for at most
`max_size`, and an assigned `max_size` is at least 1 (the setter's
validated range). -/
def OpValid {α β : Type} (s : PopState α β) : PopOp α β → Prop
  | .insert cl _ _ _ => cl.numerosity ≤ s.max_size
  | .trim desired _ => desired ≤ s.max_size
  | .setMaxSize value _ => 1 ≤ value

/-- Validity of a whole operation sequence, each operation judged
against the state it actually runs in. -/
def ValidSeq {α β : Type} [DecidableEq α] [DecidableEq β] :
    PopState α β → List (PopOp α β) → Prop
  | _, [] => True
  | s, op :: ops =>
    OpValid s op ∧ ∀ s', applyOp op s = some s' → ValidSeq s' ops

/-! ## Learning component (`components/learning.py`, `QLearningBasedComponent`) -/

/-- The per-classifier body of `update_set` (lines 51-62): increment
experience, then apply the Widrow-Hoff update, dividing by the (new)
experience while `experience < 1/beta` and using the fixed rate `beta`
afterwards.  `numSum` is `classifier_set.numerosity_sum()`, which the
loop re-reads but which never changes during the loop (no numerosity is
written), so it is the numerosity sum of the input set.  `epsilon` is
updated before `prediction`, so it reads the pre-update prediction, as
in the source; the value-range checks of the attribute setters are not
re-modelled. -/
def q_update_classifier {α β : Type} (beta numSum reward : ℚ)
    (cl : Classifier α β) : Classifier α β :=
  let exp' := cl.experience + 1
  if ((exp' : ℚ) < 1 / beta) then
    { cl with
      experience := exp',
      epsilon := cl.epsilon + (|reward - cl.prediction| - cl.epsilon) / (exp' : ℚ),
      prediction := cl.prediction + (reward - cl.prediction) / (exp' : ℚ),
      action_set_size :=
        cl.action_set_size + (numSum - cl.action_set_size) / (exp' : ℚ) }
  else
    { cl with
      experience := exp',
      epsilon := cl.epsilon + beta * (|reward - cl.prediction| - cl.epsilon),
      prediction := cl.prediction + beta * (reward - cl.prediction),
      action_set_size :=
        cl.action_set_size + beta * (numSum - cl.action_set_size) }

/-- `_classifier_accuracy` (lines 83-94): 0 without experience, 1 when
`epsilon ≤ epsilon_zero`, else `alpha * (epsilon/epsilon_zero) ** -nu`;
on that branch `0 ≤ epsilon_zero < epsilon`, where the negative power
equals `(epsilon_zero/epsilon) ^ nu`. -/
def classifier_accuracy {α β : Type} (epsilon_zero alpha : ℚ) (nu : ℕ)
    (cl : Classifier α β) : ℚ :=
  if cl.experience = 0 then 0
  else if cl.epsilon ≤ epsilon_zero then 1
  else alpha * (epsilon_zero / cl.epsilon) ^ nu

/-- `_update_fitness` (lines 66-81): numerosity-weighted accuracy sum,
then move each fitness toward its relative accuracy share at rate
`beta`. -/
def update_fitness {α β : Type} (beta epsilon_zero alpha : ℚ) (nu : ℕ)
    (cls : List (Classifier α β)) : List (Classifier α β) :=
  let accuracy_sum :=
    (cls.map (fun cl =>
      classifier_accuracy epsilon_zero alpha nu cl * (cl.numerosity : ℚ))).sum
  cls.map (fun cl =>
    { cl with fitness := cl.fitness + beta *
        ((classifier_accuracy epsilon_zero alpha nu cl * (cl.numerosity : ℚ)) /
          accuracy_sum - cl.fitness) })

/-- `QLearningBasedComponent.update_set(classifier_set, reward)`
(lines 50-64): the Widrow-Hoff update on every classifier, then the
fitness recomputation for the whole set. -/
def update_set {α β : Type} (beta epsilon_zero alpha : ℚ) (nu : ℕ)
    (cls : List (Classifier α β)) (reward : ℚ) : List (Classifier α β) :=
  update_fitness beta epsilon_zero alpha nu
    (cls.map (q_update_classifier beta (numerositySumQ cls) reward))

/-! ## Performance component (`components/performance.py`) -/

/-- `sys.float_info.epsilon` = 2⁻⁵², the divisor substituted for a zero
fitness sum in `_generate_prediction_array` (line 132). -/
def float_info_epsilon : ℚ := 1 / 2 ^ 52

/-- Fitness-weighted prediction sum of the classifiers of one action
(the numerator accumulated at line 128). -/
def prediction_fitness_sum {α β : Type} [DecidableEq β]
    (match_set : List (Classifier α β)) (a : β) : ℚ :=
  ((match_set.filter (fun cl => cl.action = a)).map
    (fun cl => cl.prediction * cl.fitness)).sum

/-- Fitness sum of the classifiers of one action (the denominator
accumulated at line 129). -/
def action_fitness_sum {α β : Type} [DecidableEq β]
    (match_set : List (Classifier α β)) (a : β) : ℚ :=
  ((match_set.filter (fun cl => cl.action = a)).map (·.fitness)).sum

/-- `_generate_prediction_array` entry of one action (lines 131-133):
the fitness-weighted average prediction, with a zero denominator
replaced by `sys.float_info.epsilon`. -/
def prediction_array_value {α β : Type} [DecidableEq β]
    (match_set : List (Classifier α β)) (a : β) : ℚ :=
  prediction_fitness_sum match_set a /
    (if action_fitness_sum match_set a ≠ 0 then action_fitness_sum match_set a
     else float_info_epsilon)

/-- The actions present in the match set, in first-occurrence order:
the key order of the `dict` built by `_generate_prediction_array`. -/
def present_actions {α β : Type} [DecidableEq β]
    (match_set : List (Classifier α β)) : List β :=
  match_set.foldl
    (fun acc cl => if cl.action ∈ acc then acc else acc ++ [cl.action]) []

/-- `max(prediction_array, key=prediction_array.get)`: the first key of
the iteration order whose value is maximal (a later key replaces the
running best only when strictly greater). -/
def argmax_first {β : Type} (f : β → ℚ) : List β → Option β
  | [] => none
  | a :: as => some (as.foldl (fun best x => if f best < f x then x else best) a)

/-- `PerformanceComponent.choose_action(match_set, is_explore=False)`
(lines 106-113), exploitation path: the maximising action of the
prediction array together with its predicted value.  `none` is the
`ValueError` of `max` on an empty dict. -/
def choose_action_exploit {α β : Type} [DecidableEq β]
    (match_set : List (Classifier α β)) : Option (β × ℚ) :=
  (argmax_first (prediction_array_value match_set)
      (present_actions match_set)).map
    (fun a => (a, prediction_array_value match_set a))

/-! ## Genetic algorithm symbol swapping (`components/discovery.py`) -/

/-- The distinct validation errors of `GeneticAlgorithm._swap_symbols`
(lines 268-283). -/
inductive SwapError where
  | emptyCollection
  | lengthMismatch
  | sameInstance
  | outOfRange
  | fromGreaterThanTo
deriving DecidableEq, Repr

/-- The inclusive swap loop of `_swap_symbols` (lines 287-289). -/
def swapRange {α : Type} (c₁ c₂ : List (XSymbol α)) (i stop : ℕ) :
    List (XSymbol α) × List (XSymbol α) :=
  if i ≥ stop then (c₁, c₂)
  else
    match c₁.get? i, c₂.get? i with
    | some x, some y => swapRange (c₁.set i y) (c₂.set i x) (i + 1) stop
    | _, _ => (c₁, c₂)
termination_by stop - i

/-- `GeneticAlgorithm._swap_symbols(condition1, condition2, from_index,
to_index)` (lines 253-291): validate non-empty, equal-length, distinct
conditions and `0 ≤ from_index ≤ to_index ≤ length - 1`, then swap the
symbols of the inclusive index range and report whether anything was
swapped.  `same_instance` stands for the `condition1 is condition2`
object-identity test, which value semantics cannot observe; indices are
`ℕ` since the callers draw them from `randint(0, len-1)`, so the
negative-index validations cannot fire. -/
def swap_symbols {α : Type} (c₁ c₂ : List (XSymbol α))
    (same_instance : Bool) (from_index to_index : ℕ) :
    Except SwapError ((List (XSymbol α) × List (XSymbol α)) × Bool) :=
  if c₁.length = 0 then .error .emptyCollection
  else if c₂.length = 0 then .error .emptyCollection
  else if c₁.length ≠ c₂.length then .error .lengthMismatch
  else if same_instance then .error .sameInstance
  else if from_index ≥ c₁.length then .error .outOfRange
  else if to_index ≥ c₁.length then .error .outOfRange
  else if from_index > to_index then .error .fromGreaterThanTo
  else
    let swapped := swapRange c₁ c₂ from_index (to_index + 1)
    .ok (swapped, decide (from_index < to_index + 1))

/-- `GeneticAlgorithm._one_point_crossover(cl1, cl2)` (lines 234-239):
draw `from_index` from `randint(0, len-1)` (the oracle parameter here)
and call `_swap_symbols(cond1, cond2, from_index, len(cond1))` — the
*length*, not the last index. -/
def one_point_crossover {α : Type} (c₁ c₂ : List (XSymbol α))
    (from_index : ℕ) :
    Except SwapError ((List (XSymbol α) × List (XSymbol α)) × Bool) :=
  swap_symbols c₁ c₂ false from_index c₁.length

/-! ## XCS engine (`algorithm.py`)

The performance, learning and discovery components are injected
constructor dependencies of `XCS`; the engine claims below concern the
run/reward control protocol and the values the engine hands to those
components, so the components' outputs appear as universally quantified
parameters (`match_set`, `chosen_action`) and the calls the engine makes
are recorded in an explicit trace.  The population the engine owns is
mutated only through those injected components and through
`insert_classifier`, which is modelled separately above. -/

/-- `XcsState` (`algorithm.py` lines 17-27): the bookkeeping record of a
pending step.  The default-constructed `XcsState()` (all fields `None`)
is represented as `none` at the use sites, matching the
`action_set is not None` test that guards every use. -/
structure XcsStateRec (α β : Type) where
  env_state : List α
  action_set : List (Classifier α β)
  chosen_action : β × ℚ
  is_explore : Bool
  received_reward : ℚ
deriving Repr

/-- The raised errors of the engine paths modelled here:
`assertionError` for the `assert` statements of `run`/`reward`,
`noneValue` for the crash of `update_set(None, ...)` when a reward
arrives with no recorded step at all. -/
inductive XcsError where
  | assertionError
  | noneValue
deriving DecidableEq, Repr

/-- The engine state: the `_expects_reward` protocol flag, the previous
and current step records, the iteration counter and the constants
(`XCSConstants`) the control flow reads. -/
structure XCSEngine (α β : Type) where
  expects_reward : Bool
  prev_state : Option (XcsStateRec α β)
  current_state : Option (XcsStateRec α β)
  iteration : ℕ
  max_iterations : ℕ
  gamma : ℚ
  do_learning_subsumption : Bool
deriving Repr

/-- The component invocations `reward` performs, in order: the learning
update (set and value), the optional action-set subsumption (on the same
set), and the optional discovery call `(timestamp, state, action set)`
on explore steps. -/
structure RewardTrace (α β : Type) where
  learned_set : List (Classifier α β)
  learned_value : ℚ
  subsumed_set : Option (List (Classifier α β))
  discovery_call : Option (ℕ × List α × List (Classifier α β))
deriving Repr

/-- `XCS.run(state, is_explore)` (lines 77-109): assert that no reward
is pending; return early (a bare `return`, i.e. `None`, without
transitioning) when `0 < max_iterations < iteration`; otherwise build
the match set and choose an action through the performance component
(`match_set`, `chosen_action` here — its outputs), set the
expects-reward flag, advance the iteration counter, record the current
step (the action set is the matching classifiers of the chosen action),
and return the chosen action.  Errors carry the engine as left by the
mutations preceding the raise. -/
def XCSEngine.run {α β : Type} [DecidableEq β] (e : XCSEngine α β)
    (match_set : List (Classifier α β)) (chosen_action : β × ℚ)
    (state : List α) (is_explore : Bool) :
    Except (XcsError × XCSEngine α β) (XCSEngine α β × Option β) :=
  if e.expects_reward then .error (.assertionError, e)
  else if 0 < e.max_iterations ∧ e.max_iterations < e.iteration then
    .ok (e, none)
  else
    .ok ({ e with
            expects_reward := true,
            iteration := e.iteration + 1,
            current_state := some
              { env_state := state,
                action_set := match_set.filter (fun cl => cl.action = chosen_action.1),
                chosen_action := chosen_action,
                is_explore := is_explore,
                received_reward := 0 } },
          some chosen_action.1)

/-- `XCS.reward(value, is_end_of_problem)` (lines 111-151): assert that
a reward is pending and clear the flag; when a previous not-yet-credited
step exists (`_prev_state.action_set is not None`) learn from the
previous step's action set with `previous.received_reward + gamma*value`,
otherwise from the current step's action set with `value`; then perform
the flagged component calls (recorded in the trace); finally either
clear both step records (end of problem) or carry the current step
forward as previous, remembering the raw `value` as its received
reward. -/
def XCSEngine.reward {α β : Type} (e : XCSEngine α β) (value : ℚ)
    (is_end_of_problem : Bool) :
    Except (XcsError × XCSEngine α β) (XCSEngine α β × RewardTrace α β) :=
  if ¬ e.expects_reward then .error (.assertionError, e)
  else
    let e₁ := { e with expects_reward := false }
    let selected : Option (ℚ × List (Classifier α β) × Bool × List α) :=
      match e₁.prev_state with
      | some p => some (p.received_reward + e₁.gamma * value,
                        p.action_set, p.is_explore, p.env_state)
      | none =>
        match e₁.current_state with
        | some c => some (value, c.action_set, c.is_explore, c.env_state)
        | none => none
    match selected with
    | none => .error (.noneValue, e₁)
    | some (reward_value, set_to_update, is_explore, env_state) =>
      let trace : RewardTrace α β :=
        { learned_set := set_to_update,
          learned_value := reward_value,
          subsumed_set :=
            if e₁.do_learning_subsumption then some set_to_update else none,
          discovery_call :=
            if is_explore then some (e₁.iteration, env_state, set_to_update)
            else none }
      let e₂ :=
        if is_end_of_problem then
          { e₁ with prev_state := none, current_state := none }
        else
          { e₁ with prev_state :=
              e₁.current_state.map (fun c => { c with received_reward := value }) }
      .ok (e₂, trace)

/-- The engine as reward leaves it, on the normal and on the raising
path alike (Python mutations performed before a raise persist). -/
def rewardEngineAfter {α β : Type} (e : XCSEngine α β) (value : ℚ)
    (is_end_of_problem : Bool) : XCSEngine α β :=
  match e.reward value is_end_of_problem with
  | .ok (e', _) => e'
  | .error (_, e') => e'

/-! ## Action-set subsumption (`XCS._do_action_set_subsumption`,
`algorithm.py` lines 164-184)

The action set consists of records of the population (the engine builds
it by filtering the match set), so it is modelled as a list of positions
into the population list; `remove_classifier` removes by object
identity (`Classifier` defines no `__eq__`), i.e. exactly those
positions. -/

/-- The most-general-classifier scan (lines 168-172): the first
criteria-eligible member, replaced whenever a later eligible member
subsumes the current one. -/
def find_most_general {α β : Type} [DecidableEq α] [DecidableEq β]
    (canSub : Classifier α β → Bool) (pop : List (Classifier α β))
    (aset : List (Fin pop.length)) : Option (Fin pop.length) :=
  aset.foldl
    (fun mg j =>
      if canSub (pop.get j) then
        match mg with
        | none => some j
        | some m => if subsumes (pop.get j) (pop.get m) then some j else some m
      else mg)
    none

/-- `classifier_to_remove` (lines 174-180): the action-set members the
most general classifier subsumes. -/
def subsumed_members {α β : Type} [DecidableEq α] [DecidableEq β]
    (pop : List (Classifier α β)) (aset : List (Fin pop.length))
    (m : Fin pop.length) : List (Fin pop.length) :=
  aset.filter (fun j => subsumes (pop.get m) (pop.get j))

/-- Keep the elements whose position satisfies `q`, positions counted
from `k`. -/
def keepIdxFrom {γ : Type} (q : ℕ → Bool) : ℕ → List γ → List γ
  | _, [] => []
  | k, c :: cs =>
    if q k then c :: keepIdxFrom q (k + 1) cs else keepIdxFrom q (k + 1) cs

/-- Net effect of the sequential `remove_classifier` calls (lines
182-184): drop the records at the listed positions. -/
def remove_positions {γ : Type} (r : List ℕ) (l : List γ) : List γ :=
  keepIdxFrom (fun i => decide (i ∉ r)) 0 l

/-- `XCS._do_action_set_subsumption(action_set)` (lines 164-184): on an
action set of at least two members, find the most general eligible
classifier; fold the numerosity of every member it subsumes into it and
remove those members from the population and from the action set.
Returns the population and the remaining action-set positions (into the
*input* population list). -/
def do_action_set_subsumption {α β : Type} [DecidableEq α] [DecidableEq β]
    (canSub : Classifier α β → Bool) (pop : List (Classifier α β))
    (aset : List (Fin pop.length)) :
    List (Classifier α β) × List (Fin pop.length) :=
  if aset.length ≤ 1 then (pop, aset)
  else
    match find_most_general canSub pop aset with
    | none => (pop, aset)
    | some m =>
      let r := subsumed_members pop aset m
      let folded := (r.map (fun j => (pop.get j).numerosity)).sum
      let pop₁ := pop.set m
        { pop.get m with numerosity := (pop.get m).numerosity + folded }
      (remove_positions (r.map Fin.val) pop₁, aset.filter (fun j => j ∉ r))

/-! ## Concrete fixtures -/

/-- `Classifier.__init__` defaults: experience 0, fitness 0,
numerosity 1, prediction 0, epsilon 0, action_set_size 1. -/
def new_classifier {α β : Type} (condition : List (XSymbol α))
    (action : β) : Classifier α β :=
  { condition := condition, action := action, fitness := 0, prediction := 0,
    epsilon := 0, numerosity := 1, experience := 0, action_set_size := 1 }

/-- A deterministic selection oracle: always index 0. -/
def sel0 {α β : Type} :
    ℕ → List (Classifier α β) → (Classifier α β → ℚ) → ℕ :=
  fun _ _ _ => 0

/-- `['#', '1']`: condition with one wildcard. -/
def exCondW : List (XSymbol ℕ) := [.wildcard, .symbol 1]

/-- `['0', '1']`: fully specific condition. -/
def exCondS : List (XSymbol ℕ) := [.symbol 0, .symbol 1]

/-- Classifier with fitness 1 on the specific condition. -/
def exClF1 : Classifier ℕ ℕ := { new_classifier exCondS 0 with fitness := 1 }

/-- Classifier with fitness 1 on the wildcard condition, other action. -/
def exClF1b : Classifier ℕ ℕ := { new_classifier exCondW 1 with fitness := 1 }

/-- Two-record population, total numerosity 2, total fitness 2. -/
def exPopC6 : List (Classifier ℕ ℕ) := [exClF1, exClF1b]

/-- An idle engine past its iteration cap: `max_iterations = 1`,
`iteration = 2`, no pending reward. -/
def exEngineGate : XCSEngine ℕ ℕ :=
  { expects_reward := false, prev_state := none, current_state := none,
    iteration := 2, max_iterations := 1, gamma := 71 / 100,
    do_learning_subsumption := true }

/-- An idle engine with the default unbounded `max_iterations = 0`. -/
def exEngineIdle : XCSEngine ℕ ℕ :=
  { exEngineGate with iteration := 0, max_iterations := 0 }

/-- A pending step: state `[0]`, one-classifier action set, received
reward 5 so far. -/
def exStepPrev : XcsStateRec ℕ ℕ :=
  { env_state := [0], action_set := [new_classifier exCondS 0],
    chosen_action := (0, 0), is_explore := false, received_reward := 5 }

/-- An engine awaiting its reward, with a previous not-yet-credited
step recorded. -/
def exEnginePrev : XCSEngine ℕ ℕ :=
  { expects_reward := true
    prev_state := some exStepPrev
    current_state := some { exStepPrev with received_reward := 0 }
    iteration := 0
    max_iterations := 0
    gamma := 71 / 100
    do_learning_subsumption := true }

/-- An engine awaiting its reward with only a current step recorded. -/
def exEngineCur : XCSEngine ℕ ℕ :=
  { exEnginePrev with prev_state := none }

/-- A general, experienced classifier of numerosity 2. -/
def exClGen : Classifier ℕ ℕ :=
  { new_classifier exCondW 0 with experience := 30, numerosity := 2 }

/-- Population for the action-set-subsumption witness: a general record
and a specific record of the same action. -/
def exPopC10 : List (Classifier ℕ ℕ) := [exClGen, new_classifier exCondS 0]

/-- The full two-member action set over `exPopC10`. -/
def exAsetC10 : List (Fin exPopC10.length) := [⟨0, by decide⟩, ⟨1, by decide⟩]

/-- `g` applied to the list element at `i` (0 outside the list); the
indexed view of a record list used by the removal accounting. -/
def getDApply {γ : Type} (g : γ → ℕ) (l : List γ) (i : ℕ) : ℕ :=
  ((l.get? i).map g).getD 0

/-! # Theorems -/

/-- `isMoreGeneralGo` over two equal conditions just returns the carried
flag: no position differs. -/
theorem isMoreGeneralGo_self {α : Type} [DecidableEq α]
    (c : List (XSymbol α)) (b : Bool) : isMoreGeneralGo c c b = b := by
  induction c generalizing b with
  | nil => rfl
  | cons x xs ih => simp [isMoreGeneralGo, ih]

/-- A condition whose position `i` is a wildcard against a non-wildcard,
all other positions equal, is recognised as more general whatever flag
is carried in. -/
theorem isMoreGeneralGo_strict {α : Type} [DecidableEq α] :
    ∀ (c₁ c₂ : List (XSymbol α)) (i : ℕ),
      c₁.length = c₂.length →
      c₁.get? i = some .wildcard →
      c₂.get? i ≠ some .wildcard →
      (∀ j, j ≠ i → c₁.get? j = c₂.get? j) →
      ∀ b, isMoreGeneralGo c₁ c₂ b = true := by
  intro c₁
  induction c₁ with
  | nil => intro c₂ i _ h1 _ _ _; simp at h1
  | cons x xs ih =>
    intro c₂ i hlen h1 h2 hother b
    cases c₂ with
    | nil => simp at hlen
    | cons y ys =>
      cases i with
      | zero =>
        have hx : x = XSymbol.wildcard := by simpa using h1
        have hy : y ≠ XSymbol.wildcard := fun h => h2 (by simp [h])
        have hxs : xs = ys := by
          apply List.ext_get?
          intro k
          simpa using hother (k + 1) (by omega)
        subst hx hxs
        have hxy : (XSymbol.wildcard : XSymbol α) ≠ y := fun h => hy h.symm
        simp [isMoreGeneralGo, hxy, XSymbol.isWildcard, isMoreGeneralGo_self]
      | succ i =>
        have hxy : x = y := by simpa using hother 0 (by omega)
        subst hxy
        simp only [isMoreGeneralGo, if_pos rfl]
        exact ih ys i (by simpa using hlen) (by simpa using h1)
          (by simpa using h2)
          (fun j hj => by simpa using hother (j + 1) (by omega)) b

/-- C9.  Strictness of generality and subsumption: `is_more_general` is
false on two position-wise equal conditions; hence a classifier never
subsumes one with the same action and an equal condition; and with the
same action it does subsume one whose condition agrees everywhere except
one position where it has the wildcard and the other does not. -/
theorem c9_generality_strictness {α β : Type} [DecidableEq α] [DecidableEq β] :
    (∀ c : List (XSymbol α), is_more_general c c = false) ∧
    (∀ cl₁ cl₂ : Classifier α β, cl₁.action = cl₂.action →
      cl₁.condition = cl₂.condition → subsumes cl₁ cl₂ = false) ∧
    (∀ (cl₁ cl₂ : Classifier α β) (i : ℕ), cl₁.action = cl₂.action →
      cl₁.condition.length = cl₂.condition.length →
      cl₁.condition.get? i = some .wildcard →
      cl₂.condition.get? i ≠ some .wildcard →
      (∀ j, j ≠ i → cl₁.condition.get? j = cl₂.condition.get? j) →
      subsumes cl₁ cl₂ = true) := by
  refine ⟨fun c => isMoreGeneralGo_self c false, ?_, ?_⟩
  · intro cl₁ cl₂ ha hc
    simp [subsumes, is_more_general, hc, isMoreGeneralGo_self]
  · intro cl₁ cl₂ i ha hlen h1 h2 hother
    simp [subsumes, ha, is_more_general,
      isMoreGeneralGo_strict cl₁.condition cl₂.condition i hlen h1 h2 hother false]

/-- Witness for C9 at concrete conditions `['#','1']`, `['0','1']`. -/
theorem c9_generality_strictness_witness :
    is_more_general exCondS exCondS = false ∧
    subsumes (new_classifier exCondS 0) (new_classifier exCondS 0) = false ∧
    subsumes (new_classifier exCondW 0) (new_classifier exCondS 0) = true := by
  refine ⟨(c9_generality_strictness (β := ℕ)).1 exCondS,
    (c9_generality_strictness).2.1 _ _ rfl rfl,
    (c9_generality_strictness).2.2 _ _ 0 rfl rfl (by decide) (by decide) ?_⟩
  intro j hj
  match j, hj with
  | 1, _ => rfl
  | (k + 2), _ => rfl

/-- Whenever the trim loop returns normally, the numerosity sum is down
to the desired size: the loop guard failed. -/
theorem trim_loop_le {α β : Type}
    (sel : ℕ → List (Classifier α β) → (Classifier α β → ℚ) → ℕ)
    (desired : ℤ) :
    ∀ (fuel k : ℕ) (cls out : List (Classifier α β)),
      trim_loop sel desired k fuel cls = some out →
      (numerositySum out : ℤ) ≤ desired := by
  intro fuel
  induction fuel with
  | zero =>
    intro k cls out h
    simp only [trim_loop] at h
    split at h
    · exact absurd h (by simp)
    · cases h
      omega
  | succ fuel ih =>
    intro k cls out h
    simp only [trim_loop] at h
    split at h
    · cases hdel : delete_step (sel k cls
          (deletion_vote (trim_average_fitness desired cls))) cls with
      | none => rw [hdel] at h; exact absurd h (by simp)
      | some cls' => rw [hdel] at h; exact ih (k + 1) cls' out h
    · cases h
      omega

/-- `trim_population` postcondition. -/
theorem trim_population_le {α β : Type}
    (sel : ℕ → List (Classifier α β) → (Classifier α β → ℚ) → ℕ)
    (desired : ℤ) (cls out : List (Classifier α β))
    (h : trim_population sel desired cls = some out) :
    (numerositySum out : ℤ) ≤ desired :=
  trim_loop_le sel desired (numerositySum cls) 0 cls out h

/-- A found first index is inside the list. -/
theorem find_first_index_lt_length {γ : Type} (p : γ → Bool) :
    ∀ (l : List γ) (i : ℕ), find_first_index p l = some i → i < l.length := by
  intro l
  induction l with
  | nil => intro i h; simp [find_first_index] at h
  | cons x xs ih =>
    intro i h
    simp only [find_first_index] at h
    split at h
    · cases h; simp
    · rcases Option.map_eq_some'.mp h with ⟨j, hj, rfl⟩
      have := ih j hj
      simp
      omega

/-- Incrementing the numerosity of the record at a valid index adds
exactly that amount to the numerosity sum. -/
theorem numerositySum_bump {α β : Type} (n : ℕ) :
    ∀ (cls : List (Classifier α β)) (i : ℕ), i < cls.length →
      numerositySum (bump_numerosity n i cls) = numerositySum cls + n := by
  intro cls
  induction cls with
  | nil => intro i h; simp at h
  | cons c cs ih =>
    intro i h
    cases i with
    | zero =>
      simp [bump_numerosity, numerositySum]
      omega
    | succ i =>
      have hi : i < cs.length := by simpa using h
      have hget : cs.get? i = some (cs.get ⟨i, hi⟩) := List.get?_eq_get hi
      have hrec := ih i hi
      simp only [bump_numerosity, hget, List.get?_cons_succ] at hrec ⊢
      simp only [List.set_cons_succ, numerositySum, List.map_cons,
        List.sum_cons] at hrec ⊢
      omega

/-- Appending one classifier adds its numerosity to the sum. -/
theorem numerositySum_append {α β : Type} (cls : List (Classifier α β))
    (cl : Classifier α β) :
    numerositySum (cls ++ [cl]) = numerositySum cls + cl.numerosity := by
  simp [numerositySum]

/-- `insert_classifier` postcondition: if the inserted numerosity fits
the capacity at all, a normal return leaves the numerosity sum within
`max_size` (the trim-first branch makes room for exactly the incoming
numerosity). -/
theorem insert_after_trim_sum {α β : Type} [DecidableEq α] [DecidableEq β]
    (canSub : Classifier α β → Bool) (do_subsumption : Bool)
    (cl : Classifier α β) (cls' : List (Classifier α β)) :
    numerositySum (insert_after_trim canSub do_subsumption cl cls') =
      numerositySum cls' + cl.numerosity := by
  unfold insert_after_trim
  cases hf : find_first_index (fun c =>
      decide (c.condition = cl.condition) && decide (c.action = cl.action)) cls' with
  | some i =>
    exact numerositySum_bump cl.numerosity cls' i
      (find_first_index_lt_length _ cls' i hf)
  | none =>
    by_cases hds : do_subsumption
    · rw [if_pos hds]
      cases hf2 : find_first_index (fun c => subsumes c cl && canSub c) cls' with
      | some i =>
        exact numerositySum_bump cl.numerosity cls' i
          (find_first_index_lt_length _ cls' i hf2)
      | none => exact numerositySum_append cls' cl
    · rw [if_neg hds]
      exact numerositySum_append cls' cl

/-- `insert_classifier` postcondition: if the inserted numerosity fits
within the capacity at all, a normal return leaves the numerosity sum
within `max_size`. -/
theorem insert_classifier_le {α β : Type} [DecidableEq α] [DecidableEq β]
    (canSub : Classifier α β → Bool)
    (sel : ℕ → List (Classifier α β) → (Classifier α β → ℚ) → ℕ)
    (max_size : ℕ) (do_subsumption : Bool) (cl : Classifier α β)
    (cls out : List (Classifier α β))
    (hn : cl.numerosity ≤ max_size)
    (h : insert_classifier canSub sel max_size do_subsumption cl cls = some out) :
    numerositySum out ≤ max_size := by
  have hn' := hn
  unfold insert_classifier at h
  by_cases hbig : max_size < numerositySum cls + cl.numerosity
  · rw [if_pos hbig] at h
    cases ht : trim_population sel ((max_size : ℤ) - (cl.numerosity : ℤ)) cls with
    | none => rw [ht] at h; exact absurd h (by simp)
    | some cls' =>
      rw [ht] at h
      have hle : (numerositySum cls' : ℤ) ≤ (max_size : ℤ) - (cl.numerosity : ℤ) :=
        trim_population_le sel _ cls cls' ht
      cases h
      rw [insert_after_trim_sum]
      omega
  · rw [if_neg hbig] at h
    cases h
    rw [insert_after_trim_sum]
    omega

/-- Every single valid mutating operation re-establishes the capacity
invariant on return, whatever the state it ran in. -/
theorem applyOp_capacity {α β : Type} [DecidableEq α] [DecidableEq β]
    (op : PopOp α β) (s s' : PopState α β)
    (hv : OpValid s op) (h : applyOp op s = some s') :
    numerositySum s'.classifier ≤ s'.max_size := by
  cases op with
  | insert cl do_subsumption canSub sel =>
    rcases Option.map_eq_some'.mp h with ⟨out, hout, rfl⟩
    exact insert_classifier_le canSub sel s.max_size do_subsumption cl
      s.classifier out hv hout
  | trim desired sel =>
    rcases Option.map_eq_some'.mp h with ⟨out, hout, rfl⟩
    have := trim_population_le sel (desired : ℤ) s.classifier out hout
    have hd : (desired : ℕ) ≤ s.max_size := hv
    simp only
    omega
  | setMaxSize value sel =>
    simp only [applyOp] at h
    split at h
    · exact absurd h (by simp)
    · rcases Option.map_eq_some'.mp h with ⟨out, hout, rfl⟩
      have := trim_population_le sel (value : ℤ) s.classifier out hout
      simp only
      omega

/-- C1.  Population capacity invariant: starting from any population and
running any non-empty sequence of completed mutating operations — each
insertion carrying numerosity at most the current `max_size`, each
explicit trim asking for at most the current `max_size`, each `max_size`
assignment at least 1 — the summed numerosity is at most `max_size` when
the sequence returns (each prefix of a longer sequence is itself such a
sequence, so this bounds the state after every completed operation). -/
theorem c1_population_capacity_invariant {α β : Type}
    [DecidableEq α] [DecidableEq β]
    (s : PopState α β) (ops : List (PopOp α β)) (s' : PopState α β)
    (hne : ops ≠ []) (hv : ValidSeq s ops) (h : execOps s ops = some s') :
    numerositySum s'.classifier ≤ s'.max_size := by
  cases ops with
  | nil => exact absurd rfl hne
  | cons op rest =>
    clear hne
    induction rest generalizing op s with
    | nil =>
      have hv' : OpValid s op ∧
          (∀ s₀, applyOp op s = some s₀ → ValidSeq s₀ []) := hv
      simp only [execOps] at h
      cases hap : applyOp op s with
      | none => rw [hap] at h; exact absurd h (by simp)
      | some s₁ =>
        rw [hap] at h
        simp only [execOps] at h
        have hs : s₁ = s' := by injection h
        exact applyOp_capacity op s s' hv'.1 (hs ▸ hap)
    | cons op₂ rest₂ ih =>
      have hv' : OpValid s op ∧
          (∀ s₀, applyOp op s = some s₀ → ValidSeq s₀ (op₂ :: rest₂)) := hv
      simp only [execOps] at h
      cases hap : applyOp op s with
      | none => rw [hap] at h; exact absurd h (by simp)
      | some s₁ =>
        rw [hap] at h
        exact ih _ _ (hv'.2 s₁ hap) h

/-- Witness for C1: inserting one fresh classifier into an empty
population of capacity 2. -/
theorem c1_population_capacity_invariant_witness :
    numerositySum ([new_classifier exCondS 0] : List (Classifier ℕ ℕ)) ≤ 2 := by
  have h : execOps (⟨2, []⟩ : PopState ℕ ℕ)
      [PopOp.insert (new_classifier exCondS 0) false (fun _ => false) sel0] =
      some ⟨2, [new_classifier exCondS 0]⟩ := by decide
  exact c1_population_capacity_invariant (⟨2, []⟩ : PopState ℕ ℕ)
    [PopOp.insert (new_classifier exCondS 0) false (fun _ => false) sel0]
    ⟨2, [new_classifier exCondS 0]⟩ (by simp)
    ⟨by simp [OpValid, new_classifier], fun _ _ => trivial⟩ h

/-- C6.  The deletion loop's average fitness, evaluated on a two-record
population (fitness 1 and numerosity 1 each) at the first iteration of
`trim_population(desired_size=0)`: the value the code binds (and feeds
to `deletion_vote` through `trim_loop`) is `Σ fitness = 2`, because the
walrus-bound loop variable is the Boolean guard (`True`, i.e. 1) rather
than the numerosity sum; the claimed value `Σ fitness / numerosity_sum`
is 1. -/
theorem c6_average_fitness_eval :
    (0 : ℤ) < (numerositySum exPopC6 : ℤ) ∧
    trim_average_fitness 0 exPopC6 = 2 ∧
    spec_average_fitness exPopC6 = 1 := by
  refine ⟨by decide, ?_, ?_⟩
  · norm_num [trim_average_fitness, exPopC6, exClF1, exClF1b, fitnessSum,
      numerositySum, new_classifier]
  · norm_num [spec_average_fitness, exPopC6, exClF1, exClF1b, fitnessSum,
      numerositySum, numerositySumQ, new_classifier]

/-- C7.  `trim_population` has no `desired_size ≤ max_size`
precondition: asked to trim a capacity-3 population (numerosity sum 1)
to desired size 4, it returns normally with the population unchanged
instead of raising. -/
theorem c7_trim_no_precondition_eval :
    applyOp (PopOp.trim 4 sel0) (⟨3, [new_classifier exCondS 0]⟩ : PopState ℕ ℕ) =
      some ⟨3, [new_classifier exCondS 0]⟩ := by
  decide

/-- C8.  For every pair of valid one-point-crossover children —
non-empty, equal-length, distinct conditions and a drawn
`from_index ∈ [0, len-1]` — `_one_point_crossover` raises
`OutOfRangeException` instead of swapping: it hands
`to_index = len(condition)` to `_swap_symbols`, whose own range
validation requires `to_index ≤ len - 1` (inclusive end index). -/
theorem c8_one_point_crossover_raises {α : Type}
    (c₁ c₂ : List (XSymbol α)) (from_index : ℕ)
    (hne : c₁ ≠ []) (hlen : c₁.length = c₂.length)
    (hfrom : from_index < c₁.length) :
    one_point_crossover c₁ c₂ from_index = .error .outOfRange := by
  have h1 : c₁.length ≠ 0 := fun h => hne (List.length_eq_zero.mp h)
  have h2 : c₂.length ≠ 0 := fun h => h1 (hlen.trans h)
  unfold one_point_crossover swap_symbols
  rw [if_neg h1, if_neg h2, if_neg (by simp [hlen]), if_neg (by simp),
    if_neg (by omega), if_pos (by omega)]

/-- Witness for C8: conditions `['#','1']` and `['0','1']`,
`from_index = 0`. -/
theorem c8_one_point_crossover_raises_witness :
    one_point_crossover exCondW exCondS 0 = .error .outOfRange :=
  c8_one_point_crossover_raises exCondW exCondS 0 (by decide)
    (by decide) (by decide)

/-- Counterexample to C2 as stated: on `exEngineGate` — a legal caller
state (`expects_reward = false`) whose iteration counter (2) has passed
`max_iterations` (1) — `run` returns normally with the engine unchanged:
it does **not** transition to awaiting-reward (the flag stays `false`),
so the very next legal `reward` call would raise. -/
theorem c2_run_reward_protocol_counterexample :
    XCSEngine.run exEngineGate [] (0, 0) [] false = .ok (exEngineGate, none) ∧
    exEngineGate.expects_reward = false := by
  constructor
  · rfl
  · rfl

/-- C2 (amended).  Run/reward protocol: `run` while a reward is pending
raises the assertion error; `reward` with no run pending raises the
assertion error; a legal `run` transitions the engine to awaiting-reward
*provided the iteration cap is not exceeded* (`max_iterations = 0` or
`iteration ≤ max_iterations`; otherwise it returns `None` leaving the
engine idle); and a legal `reward` always leaves the engine
not-awaiting-reward (the flag is cleared before any component call, so
this holds on the raising paths as well). -/
theorem c2_run_reward_protocol {α β : Type} [DecidableEq β] :
    (∀ (e : XCSEngine α β) match_set chosen_action state is_explore,
      e.expects_reward = true →
      e.run match_set chosen_action state is_explore =
        .error (.assertionError, e)) ∧
    (∀ (e : XCSEngine α β) (value : ℚ) (is_end : Bool),
      e.expects_reward = false →
      e.reward value is_end = .error (.assertionError, e)) ∧
    (∀ (e : XCSEngine α β) match_set chosen_action state is_explore,
      e.expects_reward = false →
      ¬ (0 < e.max_iterations ∧ e.max_iterations < e.iteration) →
      ∃ e', e.run match_set chosen_action state is_explore =
          .ok (e', some chosen_action.1) ∧ e'.expects_reward = true) ∧
    (∀ (e : XCSEngine α β) (value : ℚ) (is_end : Bool),
      e.expects_reward = true →
      (rewardEngineAfter e value is_end).expects_reward = false) := by
  refine ⟨?_, ?_, ?_, ?_⟩
  · intro e ms ca st x h
    simp [XCSEngine.run, h]
  · intro e v b h
    simp [XCSEngine.reward, h]
  · intro e ms ca st x h hgate
    have hrun : e.run ms ca st x = .ok ({ e with
        expects_reward := true,
        iteration := e.iteration + 1,
        current_state := some {
          env_state := st,
          action_set := ms.filter (fun cl => cl.action = ca.1),
          chosen_action := ca,
          is_explore := x,
          received_reward := 0 } }, some ca.1) := by
      simp [XCSEngine.run, h, hgate]
    exact ⟨_, hrun, rfl⟩
  · intro e v b h
    unfold rewardEngineAfter XCSEngine.reward
    simp only [h, Bool.true_eq_false, not_false_eq_true, not_true_eq_false,
      if_false, if_neg]
    cases hp : e.prev_state with
    | some p => cases b <;> simp
    | none =>
      cases hc : e.current_state with
      | some c => cases b <;> simp [hp, hc]
      | none => simp [hp, hc]

/-- Witness for C2 at concrete engines: an awaiting engine rejects
`run`, an idle engine rejects `reward`, an idle un-capped engine's `run`
transitions to awaiting-reward, and a legal `reward` clears the flag. -/
theorem c2_run_reward_protocol_witness :
    XCSEngine.run { exEngineIdle with expects_reward := true } [] (0, 0) [] false =
      .error (.assertionError, { exEngineIdle with expects_reward := true }) ∧
    XCSEngine.reward exEngineIdle 1 true =
      .error (.assertionError, exEngineIdle) ∧
    (∃ e', XCSEngine.run exEngineIdle [] (0, 0) [] false =
      .ok (e', some 0) ∧ e'.expects_reward = true) ∧
    (rewardEngineAfter exEnginePrev 1 true).expects_reward = false :=
  ⟨c2_run_reward_protocol.1 _ [] (0, 0) [] false rfl,
   c2_run_reward_protocol.2.1 exEngineIdle 1 true rfl,
   c2_run_reward_protocol.2.2.1 exEngineIdle [] (0, 0) [] false rfl
     (by decide),
   c2_run_reward_protocol.2.2.2 exEnginePrev 1 true rfl⟩

/-- C3.  Multi-step discounting backup: on a legal `reward(value, _)`,
if a previous not-yet-credited step is recorded, the learning component
is invoked on the *previous* step's action set with
`previous.received_reward + gamma * value`; otherwise it is invoked on
the current step's action set with `value` itself. -/
theorem c3_multistep_discounting_backup {α β : Type}
    (e : XCSEngine α β) (value : ℚ) (is_end : Bool)
    (h : e.expects_reward = true) :
    (∀ p, e.prev_state = some p →
      ∃ e' tr, e.reward value is_end = .ok (e', tr) ∧
        tr.learned_set = p.action_set ∧
        tr.learned_value = p.received_reward + e.gamma * value) ∧
    (∀ c, e.prev_state = none → e.current_state = some c →
      ∃ e' tr, e.reward value is_end = .ok (e', tr) ∧
        tr.learned_set = c.action_set ∧
        tr.learned_value = value) := by
  constructor
  · intro p hp
    simp only [XCSEngine.reward, h, hp, not_true_eq_false, if_false,
      Bool.false_eq_true, ite_false]
    exact ⟨_, _, rfl, rfl, rfl⟩
  · intro c hp hc
    simp only [XCSEngine.reward, h, hp, hc, not_true_eq_false, if_false,
      Bool.false_eq_true, ite_false]
    exact ⟨_, _, rfl, rfl, rfl⟩

/-- Witness for C3: the engine with recorded previous step
(`received_reward = 5`, `gamma = 71/100`) learns from the previous
step's action set with value `5 + (71/100) * 2`, and the engine with
only a current step learns from it with the raw value 2. -/
theorem c3_multistep_discounting_backup_witness :
    (∃ e' tr, XCSEngine.reward exEnginePrev 2 true = .ok (e', tr) ∧
      tr.learned_set = exStepPrev.action_set ∧
      tr.learned_value = 5 + (71 / 100) * 2) ∧
    (∃ e' tr, XCSEngine.reward exEngineCur 2 true = .ok (e', tr) ∧
      tr.learned_set = exStepPrev.action_set ∧
      tr.learned_value = 2) := by
  constructor
  · exact (c3_multistep_discounting_backup exEnginePrev 2 true rfl).1
      exStepPrev rfl
  · exact (c3_multistep_discounting_backup exEngineCur 2 true rfl).2
      { exStepPrev with received_reward := 0 } rfl rfl

/-- C4.  Widrow-Hoff learning update: for every classifier of the
updated set, experience is incremented by one, and with
`step = 1/experience` while the (incremented) experience is below
`1/beta` and `step = beta` afterwards, the update yields
`epsilon += step*(|reward - prediction| - epsilon)`,
`prediction += step*(reward - prediction)` and
`action_set_size += step*(numerosity_sum - action_set_size)`
(the epsilon update reading the pre-update prediction). -/
theorem c4_widrow_hoff_update {α β : Type}
    (beta epsilon_zero alpha : ℚ) (nu : ℕ) (reward : ℚ)
    (cls : List (Classifier α β)) (i : ℕ) (cl : Classifier α β)
    (hc : cls.get? i = some cl) :
    ∃ cl', (update_set beta epsilon_zero alpha nu cls reward).get? i = some cl' ∧
      cl'.experience = cl.experience + 1 ∧
      cl'.epsilon = cl.epsilon +
        (if ((cl.experience + 1 : ℕ) : ℚ) < 1 / beta
         then 1 / ((cl.experience + 1 : ℕ) : ℚ) else beta) *
          (|reward - cl.prediction| - cl.epsilon) ∧
      cl'.prediction = cl.prediction +
        (if ((cl.experience + 1 : ℕ) : ℚ) < 1 / beta
         then 1 / ((cl.experience + 1 : ℕ) : ℚ) else beta) *
          (reward - cl.prediction) ∧
      cl'.action_set_size = cl.action_set_size +
        (if ((cl.experience + 1 : ℕ) : ℚ) < 1 / beta
         then 1 / ((cl.experience + 1 : ℕ) : ℚ) else beta) *
          (numerositySumQ cls - cl.action_set_size) := by
  simp only [update_set, update_fitness]
  rw [List.get?_map, List.get?_map, hc, Option.map_some', Option.map_some']
  refine ⟨_, rfl, ?_, ?_, ?_, ?_⟩
  all_goals
    dsimp only [q_update_classifier]
    by_cases hlt : ((cl.experience + 1 : ℕ) : ℚ) < 1 / beta
    · simp only [if_pos hlt]
      try dsimp only
      try rfl
      try ring
    · simp only [if_neg hlt]
      try dsimp only
      try rfl
      try ring

/-- Witness for C4: one fresh classifier (experience 0, prediction 0,
epsilon 0), `beta = 1/2`, reward 4. -/
theorem c4_widrow_hoff_update_witness :
    ∃ cl', (update_set (1/2) 1 (1/10) 5
        [new_classifier exCondS 0] 4).get? 0 = some cl' ∧
      cl'.experience = (new_classifier exCondS (0 : ℕ)).experience + 1 ∧
      cl'.epsilon = (new_classifier exCondS (0 : ℕ)).epsilon +
        (if (((new_classifier exCondS (0 : ℕ)).experience + 1 : ℕ) : ℚ) < 1 / (1/2)
         then 1 / (((new_classifier exCondS (0 : ℕ)).experience + 1 : ℕ) : ℚ)
         else 1/2) *
          (|4 - (new_classifier exCondS (0 : ℕ)).prediction| -
            (new_classifier exCondS (0 : ℕ)).epsilon) ∧
      cl'.prediction = (new_classifier exCondS (0 : ℕ)).prediction +
        (if (((new_classifier exCondS (0 : ℕ)).experience + 1 : ℕ) : ℚ) < 1 / (1/2)
         then 1 / (((new_classifier exCondS (0 : ℕ)).experience + 1 : ℕ) : ℚ)
         else 1/2) *
          (4 - (new_classifier exCondS (0 : ℕ)).prediction) ∧
      cl'.action_set_size = (new_classifier exCondS (0 : ℕ)).action_set_size +
        (if (((new_classifier exCondS (0 : ℕ)).experience + 1 : ℕ) : ℚ) < 1 / (1/2)
         then 1 / (((new_classifier exCondS (0 : ℕ)).experience + 1 : ℕ) : ℚ)
         else 1/2) *
          (numerositySumQ [new_classifier exCondS (0 : ℕ)] -
            (new_classifier exCondS (0 : ℕ)).action_set_size) :=
  c4_widrow_hoff_update (1/2) 1 (1/10) 5 4 [new_classifier exCondS 0] 0
    (new_classifier exCondS 0) rfl

/-- The running best of Python's `max` is one of the candidates. -/
theorem argmax_foldl_mem {β : Type} (f : β → ℚ) :
    ∀ (l : List β) (a : β),
      l.foldl (fun best x => if f best < f x then x else best) a ∈ a :: l := by
  intro l
  induction l with
  | nil => intro a; simp
  | cons x xs ih =>
    intro a
    simp only [List.foldl_cons]
    rcases List.mem_cons.mp (ih (if f a < f x then x else a)) with h1 | h1
    · rw [h1]
      by_cases hax : f a < f x
      · simp [hax]
      · simp [hax]
    · simp [h1]

/-- The running best of Python's `max` scores at least every candidate. -/
theorem argmax_foldl_le {β : Type} (f : β → ℚ) :
    ∀ (l : List β) (a b : β), b ∈ a :: l →
      f b ≤ f (l.foldl (fun best x => if f best < f x then x else best) a) := by
  intro l
  induction l with
  | nil =>
    intro a b hb
    rcases List.mem_cons.mp hb with rfl | h
    · exact le_refl _
    · simp at h
  | cons x xs ih =>
    intro a b hb
    simp only [List.foldl_cons]
    have haa : f a ≤ f (if f a < f x then x else a) := by
      by_cases h : f a < f x
      · rw [if_pos h]; exact le_of_lt h
      · rw [if_neg h]
    have hxa : f x ≤ f (if f a < f x then x else a) := by
      by_cases h : f a < f x
      · rw [if_pos h]
      · rw [if_neg h]; exact le_of_not_lt h
    rcases List.mem_cons.mp hb with rfl | hb1
    · exact le_trans haa (ih _ _ (List.mem_cons_self _ _))
    · rcases List.mem_cons.mp hb1 with rfl | hb2
      · exact le_trans hxa (ih _ _ (List.mem_cons_self _ _))
      · exact ih _ b (List.mem_cons_of_mem _ hb2)

/-- The prediction-array key accumulation never empties its
accumulator. -/
theorem present_actions_go_ne_nil {α β : Type} [DecidableEq β] :
    ∀ (ms : List (Classifier α β)) (acc : List β), acc ≠ [] →
      ms.foldl (fun acc cl =>
        if cl.action ∈ acc then acc else acc ++ [cl.action]) acc ≠ [] := by
  intro ms
  induction ms with
  | nil => intro acc h; simpa
  | cons cl rest ih =>
    intro acc h
    simp only [List.foldl_cons]
    apply ih
    by_cases hm : cl.action ∈ acc
    · simpa [hm]
    · simp [hm]

/-- A non-empty match set yields a non-empty prediction array. -/
theorem present_actions_ne_nil {α β : Type} [DecidableEq β]
    (ms : List (Classifier α β)) (hne : ms ≠ []) :
    present_actions ms ≠ [] := by
  cases ms with
  | nil => exact absurd rfl hne
  | cons cl rest =>
    simp only [present_actions, List.foldl_cons]
    exact present_actions_go_ne_nil rest _ (by simp)

/-- Every accumulated prediction-array key is an action of the match
set (or came in with the accumulator). -/
theorem present_actions_go_subset {α β : Type} [DecidableEq β] :
    ∀ (ms : List (Classifier α β)) (acc : List β) (a : β),
      a ∈ ms.foldl (fun acc cl =>
        if cl.action ∈ acc then acc else acc ++ [cl.action]) acc →
      a ∈ acc ∨ a ∈ ms.map (·.action) := by
  intro ms
  induction ms with
  | nil => intro acc a h; exact Or.inl (by simpa using h)
  | cons cl rest ih =>
    intro acc a h
    simp only [List.foldl_cons] at h
    rcases ih _ a h with h1 | h1
    · by_cases hm : cl.action ∈ acc
      · rw [if_pos hm] at h1
        exact Or.inl h1
      · rw [if_neg hm] at h1
        rcases List.mem_append.mp h1 with h2 | h2
        · exact Or.inl h2
        · simp at h2
          subst h2
          exact Or.inr (by simp)
    · exact Or.inr (by simp [h1])

/-- C5.  Exploitation action selection: on a non-empty match set,
`choose_action` returns an action of the match set whose
prediction-array value — fitness-weighted prediction sum over fitness
sum, the denominator replaced by machine epsilon when zero — is maximal
among the present actions, together with that value; in particular an
action all of whose classifiers have fitness 0 still receives the value
`prediction_fitness_sum / float_info_epsilon` (no division by the zero
fitness sum). -/
theorem c5_choose_action_exploit {α β : Type} [DecidableEq β]
    (match_set : List (Classifier α β)) (hne : match_set ≠ []) :
    ∃ a, choose_action_exploit match_set =
        some (a, prediction_array_value match_set a) ∧
      a ∈ match_set.map (·.action) ∧
      (∀ b ∈ present_actions match_set,
        prediction_array_value match_set b ≤
          prediction_array_value match_set a) ∧
      (∀ b ∈ present_actions match_set,
        action_fitness_sum match_set b = 0 →
        prediction_array_value match_set b =
          prediction_fitness_sum match_set b / float_info_epsilon) := by
  cases hpa : present_actions match_set with
  | nil => exact absurd hpa (present_actions_ne_nil match_set hne)
  | cons a0 as =>
    refine ⟨as.foldl (fun best x =>
        if prediction_array_value match_set best <
            prediction_array_value match_set x then x else best) a0,
      ?_, ?_, ?_, ?_⟩
    · simp [choose_action_exploit, argmax_first, hpa]
    · have hmem := argmax_foldl_mem (prediction_array_value match_set) as a0
      rw [← hpa] at hmem
      rcases present_actions_go_subset match_set [] _ hmem with h | h
      · simp at h
      · exact h
    · intro b hb
      exact argmax_foldl_le (prediction_array_value match_set) as a0 b hb
    · intro b _ hfs
      simp [prediction_array_value, hfs]

/-- Witness for C5: a single zero-fitness classifier. -/
theorem c5_choose_action_exploit_witness :
    ∃ a, choose_action_exploit [new_classifier exCondS 0] =
        some (a, prediction_array_value [new_classifier exCondS 0] a) ∧
      a ∈ [new_classifier exCondS 0].map (·.action) ∧
      (∀ b ∈ present_actions [new_classifier exCondS 0],
        prediction_array_value [new_classifier exCondS 0] b ≤
          prediction_array_value [new_classifier exCondS 0] a) ∧
      (∀ b ∈ present_actions [new_classifier exCondS 0],
        action_fitness_sum [new_classifier exCondS 0] b = 0 →
        prediction_array_value [new_classifier exCondS 0] b =
          prediction_fitness_sum [new_classifier exCondS 0] b /
            float_info_epsilon) :=
  c5_choose_action_exploit [new_classifier exCondS 0] (by simp)

/-- Summing `g` over an index-filtered list equals the index-guarded sum
over all positions. -/
theorem keepIdxFrom_map_sum {γ : Type} (g : γ → ℕ) (q : ℕ → Bool) :
    ∀ (l : List γ) (k : ℕ),
      ((keepIdxFrom q k l).map g).sum =
        ∑ i in Finset.range l.length, if q (k + i) then getDApply g l i else 0 := by
  intro l
  induction l with
  | nil => intro k; simp [keepIdxFrom]
  | cons c cs ih =>
    intro k
    rw [List.length_cons, Finset.sum_range_succ']
    have h3 : (∑ i in Finset.range cs.length,
        if q (k + (i + 1)) then getDApply g (c :: cs) (i + 1) else 0) =
        ∑ i in Finset.range cs.length,
          if q ((k + 1) + i) then getDApply g cs i else 0 := by
      refine Finset.sum_congr rfl fun i _ => ?_
      rw [show k + (i + 1) = k + 1 + i by omega]
      rfl
    have h2 : getDApply g (c :: cs) 0 = g c := rfl
    rw [h3, ← ih (k + 1)]
    by_cases hq : q k
    · have hk : keepIdxFrom q k (c :: cs) = c :: keepIdxFrom q (k + 1) cs := by
        simp [keepIdxFrom, hq]
      rw [hk]
      simp only [List.map_cons, List.sum_cons, Nat.add_zero, h2]
      rw [if_pos hq]
      omega
    · have hk : keepIdxFrom q k (c :: cs) = keepIdxFrom q (k + 1) cs := by
        simp [keepIdxFrom, hq]
      rw [hk]
      simp only [Nat.add_zero, h2]
      rw [if_neg hq]
      omega

/-- Keeping every position is the identity. -/
theorem keepIdxFrom_true {γ : Type} :
    ∀ (l : List γ) (k : ℕ), keepIdxFrom (fun _ => true) k l = l := by
  intro l
  induction l with
  | nil => intro k; rfl
  | cons c cs ih => intro k; simp [keepIdxFrom, ih]

/-- A mapped sum as a positional sum. -/
theorem sum_map_as_range {γ : Type} (g : γ → ℕ) (l : List γ) :
    (l.map g).sum = ∑ i in Finset.range l.length, getDApply g l i := by
  have h := keepIdxFrom_map_sum g (fun _ => true) l 0
  simpa [keepIdxFrom_true] using h

/-- Removing a valid duplicate-free position list splits the mapped sum:
kept part plus removed part equals the whole. -/
theorem remove_positions_map_sum {γ : Type} (g : γ → ℕ)
    (rn : List ℕ) (l : List γ) (hnd : rn.Nodup)
    (hval : ∀ j ∈ rn, j < l.length) :
    ((remove_positions rn l).map g).sum + (rn.map (getDApply g l)).sum =
      (l.map g).sum := by
  have h1 : ((remove_positions rn l).map g).sum =
      ∑ i in Finset.range l.length, if i ∉ rn then getDApply g l i else 0 := by
    rw [remove_positions, keepIdxFrom_map_sum]
    exact Finset.sum_congr rfl fun i _ => by
      rw [Nat.zero_add]
      by_cases h : i ∈ rn <;> simp [h]
  have h2 : (rn.map (getDApply g l)).sum =
      ∑ i in Finset.range l.length, if i ∈ rn then getDApply g l i else 0 := by
    rw [← List.sum_toFinset _ hnd, ← Finset.sum_filter]
    have hfs : (Finset.range l.length).filter (fun i => i ∈ rn) = rn.toFinset := by
      ext i
      simp only [Finset.mem_filter, Finset.mem_range, List.mem_toFinset]
      exact ⟨fun h => h.2, fun h => ⟨hval i h, h⟩⟩
    rw [hfs]
  rw [h1, h2, ← Finset.sum_add_distrib, sum_map_as_range g l]
  exact Finset.sum_congr rfl fun i _ => by by_cases h : i ∈ rn <;> simp [h]

/-- `g = const 1` turns mapped sums into lengths. -/
theorem sum_map_one {γ : Type} (l : List γ) :
    (l.map (fun _ => (1 : ℕ))).sum = l.length := by
  induction l with
  | nil => rfl
  | cons c cs ih =>
    simp only [List.map_cons, List.sum_cons, ih, List.length_cons]
    omega

/-- Removing a valid duplicate-free position list shortens a list by
exactly its length. -/
theorem remove_positions_length {γ : Type} (rn : List ℕ) (l : List γ)
    (hnd : rn.Nodup) (hval : ∀ j ∈ rn, j < l.length) :
    (remove_positions rn l).length + rn.length = l.length := by
  have h := remove_positions_map_sum (fun _ => (1 : ℕ)) rn l hnd hval
  rw [sum_map_one, sum_map_one] at h
  have hone : rn.map (getDApply (fun _ => (1 : ℕ)) l) = rn.map (fun _ => 1) := by
    refine List.map_congr_left fun j hj => ?_
    simp [getDApply, List.getElem?_eq_getElem (hval j hj)]
  rw [hone, sum_map_one] at h
  omega

/-- A classifier never subsumes itself: `is_more_general` is strict. -/
theorem subsumes_self_false {α β : Type} [DecidableEq α] [DecidableEq β]
    (cl : Classifier α β) : subsumes cl cl = false := by
  simp [subsumes, is_more_general, isMoreGeneralGo_self]

/-- Splitting a filter by a predicate and its negation preserves
length. -/
theorem length_filter_split {γ : Type} (p : γ → Bool) (l : List γ) :
    (l.filter p).length + (l.filter (fun x => !(p x))).length = l.length := by
  induction l with
  | nil => rfl
  | cons x xs ih =>
    by_cases h : p x <;> simp [List.filter_cons, h] <;> omega

/-- C10.  Action-set subsumption conserves numerosity: run on an action
set of two or more distinct records of the population, the routine
leaves the population's total numerosity sum unchanged (the numerosity
folded into the chosen most-general eligible classifier equals the total
numerosity of the removed records), and the population's record count
decreases by exactly the number of subsumed members removed from the
action set. -/
theorem c10_action_set_subsumption_conserves {α β : Type}
    [DecidableEq α] [DecidableEq β]
    (canSub : Classifier α β → Bool) (pop : List (Classifier α β))
    (aset : List (Fin pop.length)) (hnd : aset.Nodup) :
    numerositySum (do_action_set_subsumption canSub pop aset).1 =
      numerositySum pop ∧
    (do_action_set_subsumption canSub pop aset).1.length ≤ pop.length ∧
    pop.length - (do_action_set_subsumption canSub pop aset).1.length =
      aset.length - (do_action_set_subsumption canSub pop aset).2.length := by
  unfold do_action_set_subsumption
  by_cases hsmall : aset.length ≤ 1
  · rw [if_pos hsmall]
    refine ⟨rfl, le_refl _, ?_⟩
    show pop.length - pop.length = aset.length - aset.length
    omega
  · rw [if_neg hsmall]
    cases hmg : find_most_general canSub pop aset with
    | none =>
      refine ⟨rfl, le_refl _, ?_⟩
      show pop.length - pop.length = aset.length - aset.length
      omega
    | some m =>
      dsimp only
      set r := subsumed_members pop aset m with hrdef
      set folded := (List.map (fun j => (pop.get j).numerosity) r).sum with hfdef
      set pop1 := pop.set m
        { pop.get m with numerosity := (pop.get m).numerosity + folded } with hp1def
      have hlen1 : pop1.length = pop.length := by
        rw [hp1def]; exact List.length_set pop _ _
      have hmr : m ∉ r := by
        rw [hrdef]
        simp [subsumed_members, List.mem_filter, subsumes_self_false]
      have hrnd : r.Nodup := by
        rw [hrdef]; exact hnd.filter _
      have hrnnd : (r.map Fin.val).Nodup := hrnd.map Fin.val_injective
      have hrval : ∀ j ∈ r.map Fin.val, j < pop1.length := by
        intro j hj
        rcases List.mem_map.mp hj with ⟨x, _, rfl⟩
        rw [hlen1]
        exact x.isLt
      have hsum := remove_positions_map_sum (fun c => c.numerosity)
        (r.map Fin.val) pop1 hrnnd hrval
      have hlen := remove_positions_length (r.map Fin.val) pop1 hrnnd hrval
      have hpop1sum : numerositySum pop1 = numerositySum pop + folded := by
        have hb : bump_numerosity folded m.val pop = pop1 := by
          rw [hp1def]
          simp [bump_numerosity, List.get?_eq_get m.isLt]
        rw [← hb]
        exact numerositySum_bump folded pop m.val m.isLt
      have hremsum : ((r.map Fin.val).map
          (getDApply (fun c => c.numerosity) pop1)).sum = folded := by
        rw [hfdef, List.map_map]
        refine congrArg List.sum (List.map_congr_left fun j hj => ?_)
        have hjm : j.val ≠ m.val := by
          intro hval
          exact hmr (by rwa [Fin.val_injective hval] at hj)
        have hget : pop1[(j.val : ℕ)]? = pop[(j.val : ℕ)]? := by
          rw [hp1def]
          exact List.getElem?_set_ne (fun hh => hjm hh.symm)
        simp [getDApply, Function.comp, hget, List.getElem?_eq_getElem j.isLt]
      have hrlen : (aset.filter (fun j => decide (j ∉ r))).length + r.length =
          aset.length := by
        have hcongr : aset.filter (fun j => decide (j ∉ r)) =
            aset.filter (fun j =>
              !(subsumes (pop.get m) (pop.get j))) := by
          refine List.filter_congr fun j hj => ?_
          by_cases hp : subsumes (pop.get m) (pop.get j) = true
          · have hjr : j ∈ r := by
              rw [hrdef]
              exact List.mem_filter.mpr ⟨hj, hp⟩
            simp only [List.get_eq_getElem] at hp
            simp [hjr, hp]
          · have hjr : j ∉ r := by
              rw [hrdef]
              intro hc
              exact hp (List.mem_filter.mp hc).2
            have hp2 : subsumes (pop.get m) (pop.get j) = false := by
              revert hp
              cases subsumes (pop.get m) (pop.get j) <;> simp
            simp only [List.get_eq_getElem] at hp2
            simp [hjr, hp2]
        have hsplit := length_filter_split
          (fun j => subsumes (pop.get m) (pop.get j)) aset
        have hrl : r.length =
            (aset.filter (fun j => subsumes (pop.get m) (pop.get j))).length := by
          rw [hrdef]; rfl
        rw [hcongr]
        omega
      rw [hremsum] at hsum
      rw [List.length_map] at hlen
      simp only [numerositySum] at hpop1sum
      refine ⟨?_, ?_, ?_⟩
      · simp only [numerositySum]
        omega
      · omega
      · omega

/-- Witness for C10: a two-member action set (a general experienced
record of numerosity 2 and a specific record of numerosity 1, same
action) over its own population, with an always-accepting subsumption
criteria. -/
theorem c10_action_set_subsumption_conserves_witness :
    numerositySum (do_action_set_subsumption (fun _ => true)
        exPopC10 exAsetC10).1 = numerositySum exPopC10 ∧
    (do_action_set_subsumption (fun _ => true) exPopC10 exAsetC10).1.length ≤
      exPopC10.length ∧
    exPopC10.length -
        (do_action_set_subsumption (fun _ => true) exPopC10 exAsetC10).1.length =
      exAsetC10.length -
        (do_action_set_subsumption (fun _ => true) exPopC10 exAsetC10).2.length :=
  c10_action_set_subsumption_conserves (fun _ => true) exPopC10 exAsetC10
    (by decide)
